import Mathlib

/-!
# A verification model of the tarn storage engine

This file gives a shallow embedding, in Lean, of the core algorithms of the
`tarn` content-addressed storage engine, and proves properties of them.

Conventions of the embedding:
* keys are `Nat` (the source uses raw digest bytes; only equality matters),
* blobs (byte contents of values/files) are `List Nat`,
* labels are `String`s,
* a `Location`'s mutable state is threaded explicitly: operations take the
  state and return the updated state,
* Python context-manager scopes are modelled by the value they yield plus
  the state after the scope finishes,
* filesystem/OS failures are driven by explicit failure oracles so that the
  cleanup logic of the source is modelled, not assumed.
-/

namespace Tarn

/-- Keys are digests; only equality on them is used by the modelled code. -/
abbrev Key := Nat

/-- A blob: the byte contents of a value or of a stored file. -/
abbrev Blob := List Nat

/-- A label: a short string attached to a key. -/
abbrev Label := String

/-- `MaybeLabels` from `tarn/interface.py`: an optional collection of labels. -/
abbrev MaybeLabels := Option (List Label)

/-! ## `tarn/tools/labels.py` : `JsonLabels` -/

/-- The labels store of one location: the JSON file contents per key
(`None` = the file does not exist). -/
abbrev LabelsState := Key → Option (List Label)

/-- `JsonLabels.update` (tarn/tools/labels.py, lines 43-60): if `labels` is
`None` nothing happens; otherwise, when a file for the key already exists the
stored set becomes `set(labels) | set(json.loads(file.read_text()))`, and when
it does not, the stored set is `labels` itself.  Set-union on lists is
`List.union` (membership in either operand). -/
def JsonLabels.update (st : LabelsState) (key : Key) (labels : MaybeLabels) : LabelsState :=
  match labels with
  | none => st
  | some given =>
    let stored : List Label :=
      match st key with
      | some old => given.union old
      | none => given
    fun k' => if k' = key then some stored else st k'

/-- `JsonLabels.delete` (tarn/tools/labels.py, lines 69-72): remove the file. -/
def JsonLabels.delete (st : LabelsState) (key : Key) : LabelsState :=
  fun k' => if k' = key then none else st k'

/-! ## Abstract locations (the `Location` contract)

`Fanout` and `Levels` treat their children purely through the `Location`
contract (`tarn/location/interface.py`): `read` yields the value (and labels)
or `None`, `write` yields the written handle or `None` (refusal), and only
`Writable` children are written to.  A child is modelled by its store, its
labels, whether it is a `Writable` instance, and whether its write path
currently accepts (capacity checks etc. are deterministic per location here:
a refused write leaves the location unchanged). -/

/-- A handle to stored data, as yielded by a location's `read`/`write` scope:
it records which location it points into and the bytes behind it.  This makes
"the replicated copy" and "the original handle" distinguishable. -/
structure Handle where
  locId : Nat
  data : Blob
deriving DecidableEq, Repr

/-- An abstract child location, as seen through the `Location` contract. -/
structure Loc where
  id : Nat
  store : Key → Option Blob
  labels : LabelsState
  writable : Bool
  accepts : Bool

/-- `Location.read` through the contract: `None` means "not found here",
otherwise the scope yields the value together with its labels. -/
def Loc.read (l : Loc) (key : Key) : Option (Handle × MaybeLabels) :=
  (l.store key).map fun b => (⟨l.id, b⟩, l.labels key)

/-- `Writable.write` through the contract: on acceptance the value is stored
under the key, labels are merged, and the scope yields the handle of the
stored copy; a refusal yields `None` and changes nothing. -/
def Loc.write (l : Loc) (key : Key) (v : Blob) (labels : MaybeLabels) : Loc × Option Handle :=
  if l.writable && l.accepts then
    ({ l with
        store := fun k' => if k' = key then some v else l.store k',
        labels := JsonLabels.update l.labels key labels },
     some ⟨l.id, v⟩)
  else
    (l, none)

/-! ## `tarn/location/fanout.py` : `Fanout.read` -/

/-- `Fanout.read` (tarn/location/fanout.py, lines 21-34): probe the children
in declared order; the first that yields non-`None` wins and its value is
yielded; if every child misses, yield `None`. -/
def Fanout.read : List Loc → Key → Option (Handle × MaybeLabels)
  | [], _ => none
  | l :: rest, key =>
    match l.read key with
    | some value => some value
    | none => Fanout.read rest key

/-! ## `tarn/location/levels.py` : `Levels` -/

/-- One tier of a `Levels` composition (`Level` in tarn/location/levels.py,
lines 13-17). -/
structure Level where
  location : Loc
  write : Bool
  replicate : Bool

/-- `Levels._replicate` (tarn/location/levels.py, lines 105-119) restricted to
the higher-priority tiers `islice(self._levels, index)`: walk them in order;
each tier with the `replicate` flag that is `Writable` is offered the value
via its write path; the first accepted write ends the walk and its handle is
yielded; refusals are passed over.  If no tier accepts, the original handle is
yielded.  Returns the updated tiers and the yielded `(value_copy, labels_copy)`. -/
def Levels.replicate (key : Key) (value : Handle) (labels : MaybeLabels) :
    List Level → List Level × Handle × MaybeLabels
  | [] => ([], value, labels)
  | cfg :: rest =>
    if cfg.replicate && cfg.location.writable then
      match cfg.location.write key value.data labels with
      | (loc', some written) => ({ cfg with location := loc' } :: rest, written, labels)
      | (loc', none) =>
        let (rest', w, ls) := Levels.replicate key value labels rest
        ({ cfg with location := loc' } :: rest', w, ls)
    else
      let (rest', w, ls) := Levels.replicate key value labels rest
      (cfg :: rest', w, ls)

/-- The probing loop of `Levels.read` (tarn/location/levels.py, lines 32-51):
`hi` accumulates the already-probed (higher-priority) tiers.  On the first
hit, `_replicate` runs over the higher tiers before the value is yielded. -/
def Levels.readLoop (key : Key) (hi : List Level) :
    List Level → List Level × Option (Handle × MaybeLabels)
  | [] => (hi, none)
  | cfg :: rest =>
    match cfg.location.read key with
    | some (v, ls) =>
      let (hi', w, ls') := Levels.replicate key v ls hi
      (hi' ++ cfg :: rest, some (w, ls'))
    | none => Levels.readLoop key (hi ++ [cfg]) rest

/-- `Levels.read` (tarn/location/levels.py, lines 32-51): probe the tiers in
declared order (each child is read with `return_labels=True`); on the first
hit replicate into higher tiers and yield; on a total miss yield `None`.
Returns the updated tiers and the yielded value with its labels. -/
def Levels.read (levels : List Level) (key : Key) :
    List Level × Option (Handle × MaybeLabels) :=
  Levels.readLoop key [] levels

/-- A tier is willing and able to take a replica: its `replicate` flag is set,
it is `Writable`, and its write path accepts. -/
def Level.takesReplica (cfg : Level) : Prop :=
  cfg.replicate = true ∧ cfg.location.writable = true ∧ cfg.location.accepts = true

instance (cfg : Level) : Decidable cfg.takesReplica := by
  unfold Level.takesReplica; infer_instance

/-! ### Lemmas about `Levels` -/

theorem Levels.readLoop_append_miss (key : Key) (pre : List Level)
    (hmiss : ∀ cfg ∈ pre, cfg.location.store key = none) :
    ∀ (hi rest : List Level),
      Levels.readLoop key hi (pre ++ rest) = Levels.readLoop key (hi ++ pre) rest := by
  induction pre with
  | nil => intro hi rest; simp
  | cons cfg pre ih =>
    intro hi rest
    have hc : cfg.location.read key = none := by
      simp [Loc.read, hmiss cfg (by simp)]
    rw [List.cons_append, Levels.readLoop, hc,
      ih (fun d hd => hmiss d (by simp [hd])) (hi ++ [cfg]) rest]
    simp

theorem Levels.readLoop_hit (key : Key) (hi post : List Level) (hit : Level) (b : Blob)
    (hhit : hit.location.store key = some b) :
    Levels.readLoop key hi (hit :: post) =
      ((Levels.replicate key ⟨hit.location.id, b⟩ (hit.location.labels key) hi).1
        ++ hit :: post,
       some ((Levels.replicate key ⟨hit.location.id, b⟩ (hit.location.labels key) hi).2.1,
             (Levels.replicate key ⟨hit.location.id, b⟩ (hit.location.labels key) hi).2.2)) := by
  have hc : hit.location.read key = some (⟨hit.location.id, b⟩, hit.location.labels key) := by
    simp [Loc.read, hhit]
  rw [Levels.readLoop, hc]

theorem Levels.replicate_none (key : Key) (v : Handle) (lb : MaybeLabels) :
    ∀ q : List Level, (∀ d ∈ q, ¬ d.takesReplica) →
      Levels.replicate key v lb q = (q, v, lb) := by
  intro q
  induction q with
  | nil => intro _; rfl
  | cons d q ih =>
    intro hq
    have hd := hq d (by simp)
    have ih' := ih (fun e he => hq e (by simp [he]))
    cases hg : (d.replicate && d.location.writable) with
    | false => simp [Levels.replicate, hg, ih']
    | true =>
      have hacc : d.location.accepts = false := by
        rcases Bool.and_eq_true .. |>.mp hg with ⟨h1, h2⟩
        by_contra hne
        exact hd ⟨h1, h2, by revert hne; cases d.location.accepts <;> simp⟩
      have hw : d.location.write key v.data lb = (d.location, none) := by
        simp [Loc.write, hacc]
      simp [Levels.replicate, hg, hw, ih']

theorem Levels.replicate_first_accept (key : Key) (v : Handle) (lb : MaybeLabels)
    (q r : List Level) (c : Level)
    (hq : ∀ d ∈ q, ¬ d.takesReplica) (hc : c.takesReplica) :
    Levels.replicate key v lb (q ++ c :: r) =
      (q ++ { c with location := { c.location with
          store := fun k' => if k' = key then some v.data else c.location.store k',
          labels := JsonLabels.update c.location.labels key lb } } :: r,
       ⟨c.location.id, v.data⟩, lb) := by
  induction q with
  | nil =>
    obtain ⟨h1, h2, h3⟩ := hc
    have hw : c.location.write key v.data lb =
        ({ c.location with
            store := fun k' => if k' = key then some v.data else c.location.store k',
            labels := JsonLabels.update c.location.labels key lb },
         some ⟨c.location.id, v.data⟩) := by
      simp [Loc.write, h2, h3]
    simp [Levels.replicate, h1, h2, hw]
  | cons d q ih =>
    have hd := hq d (by simp)
    have ih' := ih (fun e he => hq e (by simp [he]))
    cases hg : (d.replicate && d.location.writable) with
    | false => simp [Levels.replicate, hg, ih']
    | true =>
      have hacc : d.location.accepts = false := by
        rcases Bool.and_eq_true .. |>.mp hg with ⟨h1, h2⟩
        by_contra hne
        exact hd ⟨h1, h2, by revert hne; cases d.location.accepts <;> simp⟩
      have hw : d.location.write key v.data lb = (d.location, none) := by
        simp [Loc.write, hacc]
      simp [Levels.replicate, hg, hw, ih']

/-! ### Claim C1 -/

/-- Claim C1 (amended): for every `Levels` composition and key, `read` probes
the tiers in declared order; on the first hit at tier index `i` the value
together with its labels is written, via the write path, into the *first*
higher-priority tier (index `< i`, scanned in order) whose `replicate` flag is
set and whose write accepts — tiers that refuse are passed over — before the
value is yielded; the handle yielded to the caller is that tier's replicated
copy when such a tier exists, otherwise the original handle from tier `i`. -/
theorem levels_read_replicates_into_first_accepting_higher_tier
    (key : Key) (b : Blob) (pre post : List Level) (hit : Level)
    (hmiss : ∀ cfg ∈ pre, cfg.location.store key = none)
    (hhit : hit.location.store key = some b) :
    (∀ q c r, pre = q ++ c :: r → (∀ d ∈ q, ¬ d.takesReplica) → c.takesReplica →
      Levels.read (pre ++ hit :: post) key =
        (q ++ { c with location := { c.location with
            store := fun k' => if k' = key then some b else c.location.store k',
            labels := JsonLabels.update c.location.labels key (hit.location.labels key) } }
          :: r ++ hit :: post,
         some (⟨c.location.id, b⟩, hit.location.labels key))) ∧
    ((∀ d ∈ pre, ¬ d.takesReplica) →
      Levels.read (pre ++ hit :: post) key =
        (pre ++ hit :: post, some (⟨hit.location.id, b⟩, hit.location.labels key))) := by
  have hbase : Levels.read (pre ++ hit :: post) key =
      ((Levels.replicate key ⟨hit.location.id, b⟩ (hit.location.labels key) pre).1
        ++ hit :: post,
       some ((Levels.replicate key ⟨hit.location.id, b⟩ (hit.location.labels key) pre).2.1,
             (Levels.replicate key ⟨hit.location.id, b⟩ (hit.location.labels key) pre).2.2)) := by
    rw [Levels.read, Levels.readLoop_append_miss key pre hmiss [] (hit :: post),
      List.nil_append, Levels.readLoop_hit key pre post hit b hhit]
  constructor
  · intro q c r hpre hq hc
    subst hpre
    rw [hbase, Levels.replicate_first_accept key ⟨hit.location.id, b⟩
      (hit.location.labels key) q r c hq hc]
  · intro hnone
    rw [hbase, Levels.replicate_none key ⟨hit.location.id, b⟩ (hit.location.labels key) pre hnone]

/-- A concrete empty, replicating, accepting tier (id 0). -/
def tierA : Level :=
  ⟨⟨0, fun _ => none, fun _ => none, true, true⟩, true, true⟩

/-- A second concrete empty, replicating, accepting tier (id 1). -/
def tierB : Level :=
  ⟨⟨1, fun _ => none, fun _ => none, true, true⟩, true, true⟩

/-- A concrete tier (id 2) holding key `0` with blob `[7]` and label `lb`. -/
def tierC : Level :=
  ⟨⟨2, fun k => if k = 0 then some [7] else none,
      fun k => if k = 0 then some ["lb"] else none, true, true⟩, true, true⟩

/-- Claim C1, counterexample to the original statement: in
`Levels(tierA, tierB, tierC)` with key `0` held only by `tierC` (index 2),
both `tierA` and `tierB` (indices `< 2`) have their `replicate` flag set and
accept writes, yet after `read` the value was written only into `tierA`:
`tierB` still does not hold the key, contradicting "the value … is written via
the write path into the higher-priority tiers (indices < i) whose replicate
flag is set".  The read itself hits (it yields tier 0's replicated copy). -/
theorem levels_read_does_not_replicate_into_all_higher_tiers :
    tierB.takesReplica ∧
    tierA.location.store 0 = none ∧ tierB.location.store 0 = none ∧
    tierC.location.store 0 = some [7] ∧
    (Levels.read [tierA, tierB, tierC] 0).2 = some (⟨0, [7]⟩, some ["lb"]) ∧
    ¬ (((Levels.read [tierA, tierB, tierC] 0).1[1]?).map
        (fun cfg => cfg.location.store 0) = some (some [7])) := by
  decide

/-- Witness for Claim C1's theorem, instantiating spec law 9: for
`Levels(tierA, tierC)` with key `0` in `tierC` but not `tierA`, after `read`
tier `A` now holds the key, the labels were propagated into `A`'s label
store, and the yielded handle is `A`'s replicated copy. -/
theorem levels_read_replication_witness :
    (∀ cfg ∈ [tierA], cfg.location.store 0 = none) ∧
    tierC.location.store 0 = some [7] ∧
    (∀ d ∈ ([] : List Level), ¬ d.takesReplica) ∧ tierA.takesReplica ∧
    (Levels.read [tierA, tierC] 0).2 = some (⟨0, [7]⟩, some ["lb"]) ∧
    ((Levels.read [tierA, tierC] 0).1[0]?).map (fun cfg => cfg.location.store 0)
      = some (some [7]) ∧
    ((Levels.read [tierA, tierC] 0).1[0]?).map (fun cfg => cfg.location.labels 0)
      = some (some ["lb"]) := by
  have h := (levels_read_replicates_into_first_accepting_higher_tier 0 [7] [tierA] [] tierC
      (by intro cfg hcfg; simp at hcfg; subst hcfg; rfl) rfl).1
    [] tierA [] rfl (by intro d hd; simp at hd) (by decide)
  simp only [List.singleton_append, List.nil_append] at h
  refine ⟨by intro cfg hcfg; simp at hcfg; subst hcfg; rfl, rfl,
    by intro d hd; simp at hd, by decide, ?_, ?_, ?_⟩ <;> rw [h] <;> rfl

/-! ### Claim C5 -/

/-- Claim C5: for every `Fanout(A, B)` and key, `read` yields A's value when
A holds the key, otherwise B's value when B holds it, otherwise `None`; in
general children are probed in declared order and the first non-`None` result
wins. -/
theorem fanout_read_first_hit (A B : Loc) (key : Key) :
    (∀ a, A.store key = some a →
      Fanout.read [A, B] key = some (⟨A.id, a⟩, A.labels key)) ∧
    (A.store key = none → ∀ b, B.store key = some b →
      Fanout.read [A, B] key = some (⟨B.id, b⟩, B.labels key)) ∧
    (A.store key = none → B.store key = none → Fanout.read [A, B] key = none) ∧
    (∀ (pre post : List Loc) (l : Loc), (∀ m ∈ pre, m.store key = none) →
      ∀ b, l.store key = some b →
        Fanout.read (pre ++ l :: post) key = some (⟨l.id, b⟩, l.labels key)) := by
  refine ⟨?_, ?_, ?_, ?_⟩
  · intro a ha; simp [Fanout.read, Loc.read, ha]
  · intro hA b hb; simp [Fanout.read, Loc.read, hA, hb]
  · intro hA hB; simp [Fanout.read, Loc.read, hA, hB]
  · intro pre post l hpre b hb
    induction pre with
    | nil => simp [Fanout.read, Loc.read, hb]
    | cons m pre ih =>
      have hm : m.store key = none := hpre m (by simp)
      rw [List.cons_append, Fanout.read]
      simp [Loc.read, hm, ih (fun e he => hpre e (by simp [he]))]

/-- Witness for Claim C5's theorem: two concrete children, the key held by
the second one; the first miss is passed over and B's value is yielded. -/
theorem fanout_read_first_hit_witness :
    (tierA.location.store 0 = none) ∧ (tierC.location.store 0 = some [7]) ∧
    Fanout.read [tierA.location, tierC.location] 0 = some (⟨2, [7]⟩, some ["lb"]) := by
  refine ⟨rfl, rfl, ?_⟩
  exact (fanout_read_first_hit tierA.location tierC.location 0).2.1 rfl [7] rfl

/-! ### Claim C9 -/

/-- Claim C9: for every key, the stored label set grows monotonically under
updates: an update never removes a label from any key, and when the key
already has stored labels the update stores exactly the set-union of the
existing labels and the new ones. -/
theorem labels_update_union_monotone (st : LabelsState) (key : Key) (labels : MaybeLabels) :
    (∀ k' x, x ∈ (st k').getD [] → x ∈ (JsonLabels.update st key labels k').getD []) ∧
    (∀ old given, st key = some old → labels = some given →
      ∀ x, x ∈ (JsonLabels.update st key labels key).getD [] ↔ x ∈ given ∨ x ∈ old) := by
  constructor
  · intro k' x hx
    match labels with
    | none => exact hx
    | some given =>
      by_cases hk : k' = key
      · subst hk
        match hst : st k' with
        | none => rw [hst] at hx; simp at hx
        | some old =>
          rw [hst] at hx
          simp only [JsonLabels.update, hst, if_pos rfl, Option.getD_some]
          exact List.mem_union_iff.mpr (Or.inr hx)
      · simp only [JsonLabels.update, if_neg hk]
        exact hx
  · intro old given hst hl x
    subst hl
    simp only [JsonLabels.update, hst, if_pos rfl, Option.getD_some]
    exact List.mem_union_iff

/-- Witness for Claim C9's theorem: a concrete store holding labels
`["a", "b"]` at key 0, updated with `["b", "c"]`: the old label `"a"` is
kept and membership in the result is the union. -/
theorem labels_update_union_monotone_witness :
    (fun k => if k = 0 then some ["a", "b"] else none : LabelsState) 0 = some ["a", "b"] ∧
    ("a" ∈ (JsonLabels.update (fun k => if k = 0 then some ["a", "b"] else none) 0
        (some ["b", "c"]) 0).getD []) ∧
    ("c" ∈ (JsonLabels.update (fun k => if k = 0 then some ["a", "b"] else none) 0
        (some ["b", "c"]) 0).getD []) := by
  refine ⟨rfl, ?_, ?_⟩
  · exact (labels_update_union_monotone (fun k => if k = 0 then some ["a", "b"] else none)
      0 (some ["b", "c"])).1 0 "a" (by decide)
  · exact ((labels_update_union_monotone (fun k => if k = 0 then some ["a", "b"] else none)
      0 (some ["b", "c"])).2 ["a", "b"] ["b", "c"] rfl rfl "c").mpr (Or.inl (by decide))

/-! ## `tarn/location/disk_dict/location.py` : `DiskDict`

The per-key read/write locks serialize the operations modelled here; the
model gives the single-threaded (lock-held) semantics of each operation.
The legacy "directory at the key path" tolerance is not modelled: the store
maps each key to the blob at its final path, the only form writes produce. -/

/-- `match_buffers` (tarn/utils.py, lines 48-56): compare two byte streams in
chunks of `bufsize` bytes; a mismatched pair of chunks raises `ValueError`
(modelled as `false`); when both streams are exhausted they match. -/
def matchBuffers (bufsize : Nat) (a b : Blob) : Bool :=
  if _h1 : a.take bufsize ≠ b.take bufsize then false
  else if h2 : (a.take bufsize).isEmpty then true
  else matchBuffers bufsize (a.drop bufsize) (b.drop bufsize)
termination_by a.length
decreasing_by
  simp only [List.isEmpty_iff] at h2
  have ha : a ≠ [] := by
    intro h; rw [h] at h2; simp at h2
  have hn : bufsize ≠ 0 := by
    intro h; rw [h] at h2; simp at h2
  simp only [List.length_drop]
  exact Nat.sub_lt (List.length_pos.mpr ha) (Nat.pos_of_ne_zero hn)

theorem matchBuffers_eq_iff (bufsize : Nat) (hb : 0 < bufsize) :
    ∀ (n : Nat) (a b : Blob), a.length ≤ n → (matchBuffers bufsize a b = true ↔ a = b) := by
  intro n
  induction n with
  | zero =>
    intro a b ha
    have ha' : a = [] := List.eq_nil_of_length_eq_zero (Nat.le_zero.mp ha)
    subst ha'
    rcases b with _ | ⟨x, b⟩
    · rw [matchBuffers.eq_def]; simp
    · rw [matchBuffers.eq_def]
      have hne : (x :: b).take bufsize ≠ [] := by
        rw [Ne, List.take_eq_nil_iff]
        simp
        omega
      have hcond : ([] : Blob).take bufsize ≠ (x :: b).take bufsize := by
        simp only [List.take_nil]
        intro h
        exact hne h.symm
      rw [dif_pos hcond]
      simp
  | succ n ih =>
    intro a b ha
    rw [matchBuffers.eq_def]
    by_cases heq : a.take bufsize = b.take bufsize
    · rw [dif_neg (by simpa using heq)]
      by_cases hemp : (a.take bufsize).isEmpty
      · -- both takes empty: with 0 < bufsize this forces a = [] and b = []
        rw [dif_pos hemp]
        simp only [List.isEmpty_iff, List.take_eq_nil_iff] at hemp
        have ha' : a = [] := hemp.resolve_left (Nat.pos_iff_ne_zero.mp hb)
        have hb' : b = [] := by
          have h2 := heq
          rw [ha'] at h2
          simp only [List.take_nil] at h2
          rcases (List.take_eq_nil_iff.mp h2.symm) with h | h
          · exact absurd h (Nat.pos_iff_ne_zero.mp hb)
          · exact h
        simp [ha', hb']
      · rw [dif_neg hemp]
        have hpos : 0 < a.length := by
          rcases a with _ | ⟨x, a⟩
          · exfalso; apply hemp; simp
          · simp
        have hlen : (a.drop bufsize).length ≤ n := by
          simp only [List.length_drop]
          omega
        rw [ih (a.drop bufsize) (b.drop bufsize) hlen]
        constructor
        · intro hdrop
          calc a = a.take bufsize ++ a.drop bufsize := (List.take_append_drop ..).symm
            _ = b.take bufsize ++ b.drop bufsize := by rw [heq, hdrop]
            _ = b := List.take_append_drop ..
        · intro h; rw [h]
    · rw [dif_pos (by simpa using heq)]
      constructor
      · intro h; simp at h
      · intro h; exact absurd (by rw [h]) heq

/-- The chunk size used by `match_buffers`: `8 * 1024`. -/
def matchBufsize : Nat := 8 * 1024

/-- The mutable state of one `DiskDict`: the blob stored at each key's final
path, the labels tree (`JsonLabels`), the usage markers, and the size
tracker's counter. -/
structure DiskState where
  store : Key → Option Blob
  labels : LabelsState
  usage : Key → Bool
  size : Nat

/-- Failure oracle for the staging part of `DiskDict.write` (the inner `try`
block, tarn/location/disk_dict/location.py lines 118-141): whether the copy
into the temp file, the permission adjustment, or the rename raises, and what
partial files the failing step leaves behind. -/
structure FailureOracle where
  failCopy : Bool
  failPerms : Bool
  failMove : Bool
  tmpCreated : Bool
  tmpPartialLen : Nat
  finalPartial : Bool
  finalPartialLen : Nat

/-- The staging attempt: what the `try` block leaves at the temp path and at
the final path, and whether it raised, just before the `except`/`finally`
handlers run.  A failed copy may leave a partial temp file; a failed rename
may leave a partial file at the final path. -/
def stageAttempt (value : Blob) (o : FailureOracle) : Option Blob × Option Blob × Bool :=
  if o.failCopy then
    (if o.tmpCreated then some (value.take o.tmpPartialLen) else none, none, true)
  else if o.failPerms then
    (some value, none, true)
  else if o.failMove then
    (some value, if o.finalPartial then some (value.take o.finalPartialLen) else none, true)
  else
    (none, some value, false)

/-- The outcome of a `DiskDict.write` scope. -/
inductive WriteResult where
  | yielded (file : Blob)
  | refused
  | collision
  | runtimeError
deriving DecidableEq, Repr

/-- The full result of a `DiskDict.write`: the state after the scope, what is
left at this write's temp path, and the outcome. -/
structure WriteOut where
  state : DiskState
  tmpLeft : Option Blob
  result : WriteResult

/-- `DiskDict.write` (tarn/location/disk_dict/location.py, lines 96-152),
under the write lock.  If the final path exists, the existing blob is
compared byte-for-byte against the incoming value (`_match`, lines 221-229):
a match merges the labels and yields the existing file, a mismatch raises
`CollisionError`.  Otherwise, if the capacity check refuses, `None` is
yielded.  Otherwise the value is staged through a temp file; any staging
failure removes the final path if it was partially created (`except` clause),
removes the temp file (`finally` clause) and surfaces a `RuntimeError`; on
success, size, usage and labels are updated and the final file is yielded. -/
def DiskDict.write (writeable : Bool) (st : DiskState) (key : Key) (value : Blob)
    (labels : MaybeLabels) (o : FailureOracle) : WriteOut :=
  match st.store key with
  | some existing =>
    if matchBuffers matchBufsize value existing then
      { state := { st with labels := JsonLabels.update st.labels key labels },
        tmpLeft := none, result := .yielded existing }
    else
      { state := st, tmpLeft := none, result := .collision }
  | none =>
    if !writeable then
      { state := st, tmpLeft := none, result := .refused }
    else
      let (tmpAfter, finalAfter, raised) := stageAttempt value o
      -- `except BaseException`: if the final path exists, remove it, then
      -- raise `RuntimeError` from the original error
      let finalCleaned := if raised then none else finalAfter
      -- `finally`: if the temp file exists, remove it
      let tmpLeft : Option Blob :=
        match tmpAfter with
        | some _ => none
        | none => none
      let storeAfter : Key → Option Blob :=
        fun k' => if k' = key then finalCleaned else st.store k'
      if raised then
        { state := { st with store := storeAfter }, tmpLeft := tmpLeft,
          result := .runtimeError }
      else
        { state := { store := storeAfter,
                     labels := JsonLabels.update st.labels key labels,
                     usage := fun k' => if k' = key then true else st.usage k',
                     size := st.size + value.length },
          tmpLeft := tmpLeft, result := .yielded value }

/-- `DiskDict.delete` (tarn/location/disk_dict/location.py, lines 154-173),
under the write lock: absent keys report `false`; otherwise the file is
removed, its size subtracted, and the usage marker and labels cleared. -/
def DiskDict.delete (st : DiskState) (key : Key) : DiskState × Bool :=
  match st.store key with
  | none => (st, false)
  | some file =>
    ({ store := fun k' => if k' = key then none else st.store k',
       labels := JsonLabels.delete st.labels key,
       usage := fun k' => if k' = key then false else st.usage k',
       size := st.size - file.length }, true)

/-- What the caller's body does inside a `DiskDict.read` scope. -/
inductive BodyOutcome where
  | ok
  | corruption
  | other
deriving DecidableEq, Repr

/-- The result of a `DiskDict.read` scope: the state after the scope, what
was yielded to the body, and whether an exception propagated to the caller. -/
structure ReadOut where
  state : DiskState
  yielded : Option (Blob × MaybeLabels)
  raisedToCaller : Bool

/-- `DiskDict.read` (tarn/location/disk_dict/location.py, lines 70-94).  An
absent key yields `None` (an exception raised by the body at that yield is
not handled there and propagates).  A present key updates usage and yields
the file (with labels when requested); if the body raises
`StorageCorruption`, the generator catches it, deletes the entry under the
write lock, and returns, so nothing propagates to the caller; any other body
exception propagates. -/
def DiskDict.read (st : DiskState) (key : Key) (returnLabels : Bool)
    (body : BodyOutcome) : ReadOut :=
  match st.store key with
  | none =>
    { state := st, yielded := none, raisedToCaller := body != .ok }
  | some file =>
    let st1 := { st with usage := fun k' => if k' = key then true else st.usage k' }
    let value := if returnLabels then (file, st1.labels key) else (file, none)
    match body with
    | .corruption =>
      { state := (DiskDict.delete st1 key).1, yielded := some value,
        raisedToCaller := false }
    | .other =>
      { state := st1, yielded := some value, raisedToCaller := true }
    | .ok =>
      { state := st1, yielded := some value, raisedToCaller := false }

/-! ### Claim C2 -/

/-- Claim C2: for every `DiskDict` write that stages a new blob, if the copy
into the temp file, the permission adjustment, or the rename fails, then the
temp file is removed, any partially created file at the final key path is
removed, and a `RuntimeError` is surfaced; other keys are untouched. -/
theorem disk_write_failure_leaves_no_partial_file
    (writeable : Bool) (st : DiskState) (key : Key) (value : Blob)
    (labels : MaybeLabels) (o : FailureOracle)
    (hnew : st.store key = none) (hw : writeable = true)
    (hfail : o.failCopy = true ∨ o.failPerms = true ∨ o.failMove = true) :
    (DiskDict.write writeable st key value labels o).result = .runtimeError ∧
    (DiskDict.write writeable st key value labels o).tmpLeft = none ∧
    (DiskDict.write writeable st key value labels o).state.store key = none ∧
    ∀ k', k' ≠ key →
      (DiskDict.write writeable st key value labels o).state.store k' = st.store k' := by
  subst hw
  have hraised : (stageAttempt value o).2.2 = true := by
    simp only [stageAttempt]
    split_ifs <;> simp_all
  rcases hst : stageAttempt value o with ⟨ta, fa, raised⟩
  rw [hst] at hraised
  simp only at hraised
  subst hraised
  refine ⟨?_, ?_, ?_, ?_⟩
  · simp [DiskDict.write, hnew, hst]
  · simp only [DiskDict.write, hnew, hst]
    cases ta <;> simp
  · simp [DiskDict.write, hnew, hst]
  · intro k' hk'
    simp [DiskDict.write, hnew, hst, hk']

/-- A concrete empty disk state. -/
def diskSt0 : DiskState := ⟨fun _ => none, fun _ => none, fun _ => false, 0⟩

/-- A concrete disk state holding blob `[1, 2]` at key `0`. -/
def diskSt1 : DiskState :=
  ⟨fun k => if k = 0 then some [1, 2] else none, fun _ => none, fun _ => false, 2⟩

/-- A failure oracle where the rename to the final path fails, leaving a
1-byte partial file at the final path and the full temp file behind. -/
def oracleMoveFail : FailureOracle := ⟨false, false, true, true, 0, true, 1⟩

/-- Witness for Claim C2's theorem: a failed rename during a fresh write of
`[1, 2]` at key `0` surfaces a `RuntimeError` and leaves neither a temp file
nor anything at the final path. -/
theorem disk_write_failure_witness :
    diskSt0.store 0 = none ∧ oracleMoveFail.failMove = true ∧
    (DiskDict.write true diskSt0 0 [1, 2] none oracleMoveFail).result = .runtimeError ∧
    (DiskDict.write true diskSt0 0 [1, 2] none oracleMoveFail).tmpLeft = none ∧
    (DiskDict.write true diskSt0 0 [1, 2] none oracleMoveFail).state.store 0 = none := by
  have h := disk_write_failure_leaves_no_partial_file true diskSt0 0 [1, 2] none oracleMoveFail
    rfl rfl (Or.inr (Or.inr rfl))
  exact ⟨rfl, rfl, h.1, h.2.1, h.2.2.1⟩

/-! ### Claim C3 -/

/-- Claim C3: for every `DiskDict` whose final key path already holds a blob,
`write` compares the existing blob byte-for-byte with the incoming value;
when they match, the labels are merged and the existing file is yielded
(no error, store untouched — the repeated write is idempotent); when they
differ, `CollisionError` is raised and nothing changes. -/
theorem disk_write_existing_idempotent_or_collision
    (writeable : Bool) (st : DiskState) (key : Key) (value existing : Blob)
    (labels : MaybeLabels) (o : FailureOracle)
    (hexist : st.store key = some existing) :
    (value = existing →
      (DiskDict.write writeable st key value labels o).result = .yielded existing ∧
      (DiskDict.write writeable st key value labels o).state.store = st.store ∧
      (DiskDict.write writeable st key value labels o).state.labels
        = JsonLabels.update st.labels key labels) ∧
    (value ≠ existing →
      (DiskDict.write writeable st key value labels o).result = .collision ∧
      (DiskDict.write writeable st key value labels o).state = st) := by
  have hmatch : matchBuffers matchBufsize value existing = true ↔ value = existing :=
    matchBuffers_eq_iff matchBufsize (by norm_num [matchBufsize]) value.length value existing
      le_rfl
  constructor
  · intro hveq
    have hm : matchBuffers matchBufsize value existing = true := hmatch.mpr hveq
    refine ⟨?_, ?_, ?_⟩ <;> simp only [DiskDict.write, hexist, hm, if_true, if_pos rfl]
  · intro hvne
    have hm : matchBuffers matchBufsize value existing = false := by
      rcases Bool.eq_false_or_eq_true (matchBuffers matchBufsize value existing) with h | h
      · exact absurd (hmatch.mp h) hvne
      · exact h
    refine ⟨?_, ?_⟩ <;> simp only [DiskDict.write, hexist, hm, Bool.false_eq_true, if_false]

/-- Witness for Claim C3's theorem: with `[1, 2]` already stored at key `0`,
re-writing `[1, 2]` yields the existing file with no error, and writing
`[9]` instead raises `CollisionError` leaving the state unchanged. -/
theorem disk_write_existing_witness :
    diskSt1.store 0 = some [1, 2] ∧
    (DiskDict.write true diskSt1 0 [1, 2] (some ["a"]) oracleMoveFail).result
      = .yielded [1, 2] ∧
    (DiskDict.write true diskSt1 0 [9] none oracleMoveFail).result = .collision := by
  refine ⟨rfl, ?_, ?_⟩
  · exact ((disk_write_existing_idempotent_or_collision true diskSt1 0 [1, 2] [1, 2]
      (some ["a"]) oracleMoveFail rfl).1 rfl).1
  · exact ((disk_write_existing_idempotent_or_collision true diskSt1 0 [9] [1, 2]
      none oracleMoveFail rfl).2 (by decide)).1

/-! ### Claim C4 -/

/-- Claim C4: for every `DiskDict` read of a present key whose body raises
`StorageCorruption`, the exception is not propagated to the caller, the entry
at the key is deleted (blob, labels and usage marker), and a subsequent read
of the key yields `None`. -/
theorem disk_read_corruption_self_heals
    (st : DiskState) (key : Key) (returnLabels : Bool) (file : Blob)
    (hpresent : st.store key = some file) :
    (DiskDict.read st key returnLabels .corruption).raisedToCaller = false ∧
    (DiskDict.read st key returnLabels .corruption).state.store key = none ∧
    (DiskDict.read st key returnLabels .corruption).state.labels key = none ∧
    (DiskDict.read st key returnLabels .corruption).state.usage key = false ∧
    (DiskDict.read (DiskDict.read st key returnLabels .corruption).state key returnLabels
      .ok).yielded = none := by
  have hdel : (DiskDict.read st key returnLabels .corruption).state.store key = none := by
    simp [DiskDict.read, hpresent, DiskDict.delete]
  refine ⟨?_, hdel, ?_, ?_, ?_⟩
  · simp [DiskDict.read, hpresent]
  · simp [DiskDict.read, hpresent, DiskDict.delete, JsonLabels.delete]
  · simp [DiskDict.read, hpresent, DiskDict.delete]
  · generalize hst2 : (DiskDict.read st key returnLabels .corruption).state = st2 at hdel ⊢
    simp [DiskDict.read, hdel]

/-- Witness for Claim C4's theorem: a corrupting read of key `0` (stored
blob `[1, 2]`) propagates nothing, deletes the entry, and the retry misses. -/
theorem disk_read_corruption_witness :
    diskSt1.store 0 = some [1, 2] ∧
    (DiskDict.read diskSt1 0 true .corruption).raisedToCaller = false ∧
    (DiskDict.read diskSt1 0 true .corruption).state.store 0 = none ∧
    (DiskDict.read (DiskDict.read diskSt1 0 true .corruption).state 0 true .ok).yielded
      = none := by
  have h := disk_read_corruption_self_heals diskSt1 0 true [1, 2] rfl
  exact ⟨rfl, h.1, h.2.1, h.2.2.2.2⟩

/-! ## `tarn/digest.py` and `tarn/pool/hash_key.py` : `HashKeyStorage` -/

/-- A seekable byte buffer (`BytesIO`-like): contents and current position. -/
structure Buffer where
  data : Blob
  pos : Nat
deriving DecidableEq, Repr

/-- The chunked read loop of `digest_value` (tarn/digest.py, lines 16-21):
read `blockSize`-byte chunks until an empty chunk comes back, collecting all
bytes read (`a` is the part of the stream after the current position). -/
def readChunks (blockSize : Nat) (a : Blob) : Blob :=
  if h2 : (a.take blockSize).isEmpty then []
  else a.take blockSize ++ readChunks blockSize (a.drop blockSize)
termination_by a.length
decreasing_by
  simp only [List.isEmpty_iff] at h2
  have ha : a ≠ [] := by
    intro h; rw [h] at h2; simp at h2
  have hn : blockSize ≠ 0 := by
    intro h; rw [h] at h2; simp at h2
  simp only [List.length_drop]
  exact Nat.sub_lt (List.length_pos.mpr ha) (Nat.pos_of_ne_zero hn)

theorem readChunks_eq (blockSize : Nat) (hb : 0 < blockSize) :
    ∀ (n : Nat) (a : Blob), a.length ≤ n → readChunks blockSize a = a := by
  intro n
  induction n with
  | zero =>
    intro a ha
    have ha' : a = [] := List.eq_nil_of_length_eq_zero (Nat.le_zero.mp ha)
    subst ha'
    rw [readChunks.eq_def]
    simp
  | succ n ih =>
    intro a ha
    rw [readChunks.eq_def]
    by_cases hemp : (a.take blockSize).isEmpty
    · rw [dif_pos hemp]
      simp only [List.isEmpty_iff, List.take_eq_nil_iff] at hemp
      exact (hemp.resolve_left (Nat.pos_iff_ne_zero.mp hb)).symm
    · rw [dif_neg hemp]
      have hpos : 0 < a.length := by
        rcases a with _ | ⟨x, a⟩
        · exfalso; apply hemp; simp
        · simp
      have hlen : (a.drop blockSize).length ≤ n := by
        simp only [List.length_drop]
        omega
      rw [ih (a.drop blockSize) hlen, List.take_append_drop]

/-- The `block_size` default of `digest_value`: `2 ** 20`. -/
def digestBlockSize : Nat := 2 ^ 20

/-- `digest_value` (tarn/digest.py, lines 13-22) on a buffer: stream the
bytes after the current position through the hash algorithm `H` in
`block_size`-byte chunks; afterwards the buffer stands at the end of the
stream.  Returns the digest and the exhausted buffer. -/
def digestValue (H : Blob → Key) (b : Buffer) : Key × Buffer :=
  (H (readChunks digestBlockSize (b.data.drop b.pos)), { b with pos := b.data.length })

/-- A value passed to `HashKeyStorage.write`: raw bytes (paths behave the
same: digest over the whole contents, no seek dance) or a seekable buffer. -/
inductive HKValue where
  | bytes (bs : Blob)
  | buffer (b : Buffer)
deriving DecidableEq, Repr

/-- What `HashKeyStorage.write` surfaces. -/
inductive HKWriteResult where
  | key (digest : Key)
  | noKey
  | writeError (digest : Key)
deriving DecidableEq, Repr

/-- The result of a `HashKeyStorage.write`: the local location afterwards,
the surfaced result, and the buffer as it was handed to the local write
path (recording the position it was at when stored). -/
structure HKWriteOut where
  loc : Loc
  result : HKWriteResult
  handedToStore : Buffer

/-- The `with self._local.write(digest, value, labels) as written` part of
`HashKeyStorage.write` (tarn/pool/hash_key.py, lines 81-88): on refusal,
raise `WriteError` or return `None` per the resolved error policy; otherwise
return the digest. -/
def HashKeyStorage.writeCore (lcl : Loc) (digest : Key) (buf : Buffer)
    (labels : MaybeLabels) (err : Bool) : HKWriteOut :=
  match lcl.write digest (buf.data.drop buf.pos) labels with
  | (loc', some _) => { loc := loc', result := .key digest, handedToStore := buf }
  | (loc', none) =>
    if err then { loc := loc', result := .writeError digest, handedToStore := buf }
    else { loc := loc', result := .noKey, handedToStore := buf }

/-- `HashKeyStorage.write` (tarn/pool/hash_key.py, lines 65-88): resolve the
error policy (`_resolve_value`: the call-site argument, else the preset);
digest the value — for a seekable buffer, remember the position, digest from
it, and seek back to it before storing; raw bytes are wrapped in a fresh
buffer — then write the value under the digest to the local location. -/
def HashKeyStorage.write (H : Blob → Key) (lcl : Loc) (presetError : Bool)
    (value : HKValue) (error : Option Bool) (labels : MaybeLabels) : HKWriteOut :=
  let err := error.getD presetError
  match value with
  | .bytes bs =>
    let digest := (digestValue H ⟨bs, 0⟩).1
    HashKeyStorage.writeCore lcl digest ⟨bs, 0⟩ labels err
  | .buffer b =>
    let position := b.pos
    let digested := digestValue H b
    HashKeyStorage.writeCore lcl digested.1 { digested.2 with pos := position } labels err

/-! ## `tarn/tools/locker.py` : `wait_for_true` and `RedisLocker` -/

/-- The outcome of a lock-acquisition loop: acquired after a number of polls,
or `PotentialDeadLock`. -/
inductive AcquireOutcome where
  | acquired (iterations : Nat)
  | potentialDeadLock
deriving DecidableEq, Repr

/-- The loop of `wait_for_true` (tarn/tools/locker.py, lines 165-176) from
iteration `i`: poll `func` (the result of the `i`-th poll is `func i`); on
success stop; otherwise, once `i` reaches `maxIterations`, raise
`PotentialDeadLock`; else sleep for the fixed interval and retry. -/
def waitForTrueFrom (func : Nat → Bool) (maxIterations i : Nat) : AcquireOutcome :=
  if func i then .acquired i
  else if maxIterations ≤ i then .potentialDeadLock
  else waitForTrueFrom func maxIterations (i + 1)
termination_by maxIterations + 1 - i

/-- `wait_for_true(func, key, sleep_time, max_iterations)`: the loop starts
at `i = 0`. -/
def wait_for_true (func : Nat → Bool) (maxIterations : Nat) : AcquireOutcome :=
  waitForTrueFrom func maxIterations 0

/-- `sleep_iters = int(self._expire / sleep_time) or 1` with
`sleep_time = 0.01` (tarn/tools/locker.py, lines 81-82 and 94-95), in exact
arithmetic: `expire * 100`, replaced by `1` when that is `0`. -/
def RedisLocker.sleepIters (expire : Nat) : Nat :=
  if expire * 100 = 0 then 1 else expire * 100

/-- The acquisition part of `RedisLocker.read` / `RedisLocker.write`
(tarn/tools/locker.py, lines 79-103): poll the `_start_reading` /
`_start_writing` predicate through `wait_for_true` with the
`expire / sleep_time` bound. -/
def RedisLocker.acquire (start : Nat → Bool) (expire : Nat) : AcquireOutcome :=
  wait_for_true start (RedisLocker.sleepIters expire)

theorem waitForTrueFrom_spec (func : Nat → Bool) (m : Nat) :
    ∀ (fuel i : Nat), m + 1 - i ≤ fuel →
      (∃ j, i ≤ j ∧ j ≤ max i m ∧ waitForTrueFrom func m i = .acquired j ∧
        func j = true ∧ ∀ l, i ≤ l → l < j → func l = false) ∨
      (waitForTrueFrom func m i = .potentialDeadLock ∧
        ∀ l, i ≤ l → l ≤ max i m → func l = false) := by
  intro fuel
  induction fuel with
  | zero =>
    intro i hfuel
    have him : m < i := by omega
    rw [waitForTrueFrom]
    cases hf : func i with
    | true =>
      left
      exact ⟨i, le_rfl, Nat.le_max_left .., by simp, hf, fun l h1 h2 => absurd h1 (by omega)⟩
    | false =>
      right
      simp only [Bool.false_eq_true, if_false]
      rw [if_pos (by omega)]
      refine ⟨rfl, fun l h1 h2 => ?_⟩
      have : l = i := by omega
      rw [this]; exact hf
  | succ fuel ih =>
    intro i hfuel
    rw [waitForTrueFrom]
    cases hf : func i with
    | true =>
      left
      exact ⟨i, le_rfl, Nat.le_max_left .., by simp, hf, fun l h1 h2 => absurd h1 (by omega)⟩
    | false =>
      simp only [Bool.false_eq_true, if_false]
      by_cases him : m ≤ i
      · right
        rw [if_pos him]
        refine ⟨rfl, fun l h1 h2 => ?_⟩
        have : l = i := by omega
        rw [this]; exact hf
      · rw [if_neg him]
        rcases ih (i + 1) (by omega) with ⟨j, hj1, hj2, hj3, hj4, hj5⟩ | ⟨h1, h2⟩
        · left
          refine ⟨j, by omega, by omega, by simp [hj3], hj4, fun l hl1 hl2 => ?_⟩
          rcases Nat.eq_or_lt_of_le hl1 with h | h
          · rw [← h]; exact hf
          · exact hj5 l (by omega) hl2
        · right
          refine ⟨by simp [h1], fun l hl1 hl2 => ?_⟩
          rcases Nat.eq_or_lt_of_le hl1 with h | h
          · rw [← h]; exact hf
          · exact h2 l (by omega) (by omega)

theorem readChunks_million (a : Blob) : readChunks digestBlockSize a = a :=
  readChunks_eq digestBlockSize (by norm_num [digestBlockSize]) a.length a le_rfl

/-- The bytes of a `HKValue` that get digested and stored: all of them for
raw bytes, the bytes from the current position for a buffer. -/
def hkPayload : HKValue → Blob
  | .bytes bs => bs
  | .buffer b => b.data.drop b.pos

/-- The buffer as `HashKeyStorage.write` hands it to the local store: raw
bytes are wrapped fresh at position `0`; a buffer keeps its data and stands
at its original position again (the seek-back). -/
def hkStoredFrom : HKValue → Buffer
  | .bytes bs => ⟨bs, 0⟩
  | .buffer b => ⟨b.data, b.pos⟩

/-! ### Claim C6 -/

/-- Claim C6: for every `HashKeyStorage` and value, `write` digests the
value's byte stream (for a seekable buffer, the bytes from its position,
with the position restored before storing), writes the value under the
computed digest to the local location and returns that digest; when the
local location refuses (yields `None`), it raises `WriteError` if the
resolved error policy is true and returns `None` otherwise. -/
theorem hash_key_write_digest_and_policy
    (H : Blob → Key) (lcl : Loc) (presetError : Bool) (error : Option Bool)
    (labels : MaybeLabels) (value : HKValue) :
    ((HashKeyStorage.write H lcl presetError value error labels).handedToStore
      = hkStoredFrom value) ∧
    (lcl.writable = true → lcl.accepts = true →
      (HashKeyStorage.write H lcl presetError value error labels).result
        = .key (H (hkPayload value)) ∧
      (HashKeyStorage.write H lcl presetError value error labels).loc.store
        (H (hkPayload value)) = some (hkPayload value)) ∧
    ((lcl.writable && lcl.accepts) = false →
      (HashKeyStorage.write H lcl presetError value error labels).result
        = (if error.getD presetError then .writeError (H (hkPayload value))
           else .noKey)) := by
  refine ⟨?_, fun hw ha => ⟨?_, ?_⟩, fun hrefuse => ?_⟩ <;> cases value <;>
    simp [HashKeyStorage.write, HashKeyStorage.writeCore, Loc.write, hkPayload,
      hkStoredFrom, digestValue, readChunks_million, *] <;> split_ifs <;> simp

/-- A concrete hash algorithm for witnesses: the byte count. -/
def lengthHash (b : Blob) : Key := b.length

/-- Witness for Claim C6's theorem: writing the buffer `[5, 6]` at position
`1` through an accepting local location digests `[6]`, hands the buffer back
at position `1`, stores `[6]` under the digest, and returns the digest. -/
theorem hash_key_write_witness :
    tierA.location.writable = true ∧ tierA.location.accepts = true ∧
    (HashKeyStorage.write lengthHash tierA.location true (.buffer ⟨[5, 6], 1⟩)
      none none).handedToStore = ⟨[5, 6], 1⟩ ∧
    (HashKeyStorage.write lengthHash tierA.location true (.buffer ⟨[5, 6], 1⟩)
      none none).result = .key 1 ∧
    (HashKeyStorage.write lengthHash tierA.location true (.buffer ⟨[5, 6], 1⟩)
      none none).loc.store 1 = some [6] := by
  have h := hash_key_write_digest_and_policy lengthHash tierA.location true none none
    (.buffer ⟨[5, 6], 1⟩)
  exact ⟨rfl, rfl, h.1, (h.2.1 rfl rfl).1, (h.2.1 rfl rfl).2⟩

/-! ### Claim C8 -/

/-- Claim C8: every `RedisLocker` acquisition polls the acquire predicate at
a fixed interval for at most `expire / sleep_time` iterations: either it
acquires at the first poll that returns true, within the bound, or — the
lock still being unavailable when the bound is exceeded —
`PotentialDeadLock` is raised.  In both cases acquisition terminates. -/
theorem redis_acquire_bounded_or_deadlock (start : Nat → Bool) (expire : Nat) :
    (∃ j, j ≤ RedisLocker.sleepIters expire ∧
      RedisLocker.acquire start expire = .acquired j ∧ start j = true ∧
      ∀ l, l < j → start l = false) ∨
    (RedisLocker.acquire start expire = .potentialDeadLock ∧
      ∀ l, l ≤ RedisLocker.sleepIters expire → start l = false) := by
  have h := waitForTrueFrom_spec start (RedisLocker.sleepIters expire)
    (RedisLocker.sleepIters expire + 1) 0 (by omega)
  rcases h with ⟨j, _, hj2, hj3, hj4, hj5⟩ | ⟨h1, h2⟩
  · left
    exact ⟨j, by rw [Nat.zero_max] at hj2; exact hj2, hj3, hj4,
      fun l hl => hj5 l (Nat.zero_le l) hl⟩
  · right
    exact ⟨h1, fun l hl => h2 l (Nat.zero_le l) (by rw [Nat.zero_max]; exact hl)⟩

/-! ## `tarn/pool/pickle_key.py` : `PickleKeyStorage`

The external collaborators are parameters, per the `Serializer` and
fingerprinter contracts: `dumps` is the versioned fingerprint function
(`None` = the current version), `hashAlg` the digest algorithm, `save` covers
`serializer.save` plus the blob writes into the backing `HashKeyStorage` plus
the canonical-JSON dump of the resulting mapping, and `load` covers
`_unpack_mapping` plus `serializer.load` via `storage.read` — `none` standing
for the `DeserializationError` / `ReadError` outcomes that `_read_for_digest`
turns into `StorageCorruption`.  (A serializer that raises `SerializerError`
or an unrelated exception propagates in the source and is outside this
model.)  Raw keys and deserialized values are opaque (`Nat`). -/

/-- The external collaborators of `PickleKeyStorage`. -/
structure PickleModel where
  hashAlg : Blob → Key
  dumps : Nat → Option Nat → Blob
  previousVersions : List Nat
  save : Nat → Blob
  load : Blob → Option Nat

/-- The index `Location` of a `PickleKeyStorage`: what it stores per digest,
and whether its write path accepts. -/
structure IdxLoc where
  store : Key → Option Blob
  accepts : Bool

/-- The current-version digest of a raw key:
`digest = algorithm(dumps(key, None)).digest()` (`_key_to_digest`,
tarn/pool/pickle_key.py, lines 145-154). -/
def PickleModel.currentDigest (m : PickleModel) (raw : Nat) : Key :=
  m.hashAlg (m.dumps raw none)

/-- The digest of a raw key under a previous fingerprint version. -/
def PickleModel.versionDigest (m : PickleModel) (raw : Nat) (version : Nat) : Key :=
  m.hashAlg (m.dumps raw (some version))

/-- `PickleKeyStorage._read_for_digest` (tarn/pool/pickle_key.py, lines
106-122): read the index entry; absent means `(None, False)`; present and
loadable means `(value, True)`; a `DeserializationError`/`ReadError` raises
`StorageCorruption` inside the index location's read scope, which deletes
the entry and suppresses it, after which the code falls through to
`return None, False`. -/
def readForDigest (m : PickleModel) (idx : IdxLoc) (digest : Key) :
    IdxLoc × Option Nat × Bool :=
  match idx.store digest with
  | none => (idx, none, false)
  | some blob =>
    match m.load blob with
    | some v => (idx, some v, true)
    | none =>
      ({ idx with store := fun k => if k = digest then none else idx.store k },
       none, false)

/-- What `PickleKeyStorage.write` surfaces. -/
inductive PickleWriteResult where
  | key (digest : Key)
  | noKey
  | writeError
  | collisionError
deriving DecidableEq, Repr

/-- `PickleKeyStorage.write` (tarn/pool/pickle_key.py, lines 80-104) at the
index level: serialize the value into the canonical mapping bytes and write
them under the current-version digest to the index location (whose content
comparison follows the `DiskDict` write contract: identical content is
idempotent, different content is a `CollisionError`, re-raised with both
mappings); a refusal returns `None` or raises `WriteError` per `error`. -/
def PickleKeyStorage.write (m : PickleModel) (idx : IdxLoc) (raw : Nat) (value : Nat)
    (error : Bool) : IdxLoc × PickleWriteResult :=
  let digest := m.currentDigest raw
  let blob := m.save value
  match idx.store digest with
  | some existing =>
    if existing = blob then (idx, .key digest)
    else (idx, .collisionError)
  | none =>
    if idx.accepts then
      ({ idx with store := fun k => if k = digest then some blob else idx.store k },
       .key digest)
    else if error then (idx, .writeError)
    else (idx, .noKey)

/-- The previous-versions fallback loop of `PickleKeyStorage._read`
(tarn/pool/pickle_key.py, lines 131-139), over an explicit version list (the
source iterates `reversed(PREVIOUS_VERSIONS)`): look each version's digest
up; on a hit, store the value under the current digest for faster access
next time (`self.write(key, value, error=False)`) and return it. -/
def readPrevLoop (m : PickleModel) (raw : Nat) :
    IdxLoc → List Nat → IdxLoc × Option Nat × Bool
  | idx, [] => (idx, none, false)
  | idx, version :: rest =>
    match readForDigest m idx (m.versionDigest raw version) with
    | (idx1, some v, true) =>
      ((PickleKeyStorage.write m idx1 raw v false).1, some v, true)
    | (idx1, _, _) => readPrevLoop m raw idx1 rest

/-- `PickleKeyStorage._read` (tarn/pool/pickle_key.py, lines 124-142): try
the current-version digest; on a miss, fall back to the previous fingerprint
versions in reverse order. -/
def PickleKeyStorage.readInternal (m : PickleModel) (idx : IdxLoc) (raw : Nat) :
    IdxLoc × Option Nat × Bool :=
  match readForDigest m idx (m.currentDigest raw) with
  | (idx1, some v, true) => (idx1, some v, true)
  | (idx1, _, _) => readPrevLoop m raw idx1 m.previousVersions.reverse

/-- What `PickleKeyStorage.read` surfaces. -/
inductive PickleReadResult where
  | pair (value : Option Nat) (found : Bool)
  | value (v : Option Nat)
  | readError
deriving DecidableEq, Repr

/-- `PickleKeyStorage.read` (tarn/pool/pickle_key.py, lines 66-78): run
`_read`; with `error=False` return `value, bool(exists)`; with `error=True`
return the value when found and raise `ReadError` otherwise (`_read` only
ever returns a boolean `exists`, so the `WriteError` branch guarded by
`exists is None` is unreachable). -/
def PickleKeyStorage.read (m : PickleModel) (idx : IdxLoc) (raw : Nat)
    (error : Bool) : IdxLoc × PickleReadResult :=
  match PickleKeyStorage.readInternal m idx raw with
  | (idx1, value, found) =>
    if !error then (idx1, .pair value found)
    else if found then (idx1, .value value)
    else (idx1, .readError)

theorem readPrevLoop_all_miss (m : PickleModel) (raw : Nat) :
    ∀ (vs : List Nat) (idx : IdxLoc),
      (∀ version ∈ vs, idx.store (m.versionDigest raw version) = none) →
      readPrevLoop m raw idx vs = (idx, none, false) := by
  intro vs
  induction vs with
  | nil => intro idx _; rfl
  | cons version rest ih =>
    intro idx hmiss
    have hv : idx.store (m.versionDigest raw version) = none := hmiss version (by simp)
    rw [readPrevLoop, readForDigest, hv]
    exact ih idx (fun u hu => hmiss u (by simp [hu]))

theorem readPrevLoop_skip_miss (m : PickleModel) (raw : Nat) :
    ∀ (pre rest : List Nat) (idx : IdxLoc),
      (∀ version ∈ pre, idx.store (m.versionDigest raw version) = none) →
      readPrevLoop m raw idx (pre ++ rest) = readPrevLoop m raw idx rest := by
  intro pre
  induction pre with
  | nil => intro rest idx _; rfl
  | cons version pre ih =>
    intro rest idx hmiss
    have hv : idx.store (m.versionDigest raw version) = none := hmiss version (by simp)
    rw [List.cons_append, readPrevLoop, readForDigest, hv]
    exact ih rest idx (fun u hu => hmiss u (by simp [hu]))

/-! ### Claim C7 -/

/-- Claim C7: for every `PickleKeyStorage` read whose current-version digest
is absent from the index, the previous fingerprint versions are tried in
reverse registry order; on the first hit, the value is rewritten under the
current digest and returned, and a subsequent read of the same raw key hits
the current-version digest directly. -/
theorem pickle_read_version_fallback
    (m : PickleModel) (idx : IdxLoc) (raw : Nat) (pre rest : List Nat)
    (vhit : Nat) (blob : Blob) (val : Nat)
    (hcur : idx.store (m.currentDigest raw) = none)
    (hsplit : m.previousVersions.reverse = pre ++ vhit :: rest)
    (hpre : ∀ u ∈ pre, idx.store (m.versionDigest raw u) = none)
    (hhit : idx.store (m.versionDigest raw vhit) = some blob)
    (hload : m.load blob = some val)
    (hacc : idx.accepts = true)
    (hround : m.load (m.save val) = some val) :
    PickleKeyStorage.readInternal m idx raw =
      ({ idx with store := fun k => if k = m.currentDigest raw then some (m.save val)
            else idx.store k }, some val, true) ∧
    readForDigest m (PickleKeyStorage.readInternal m idx raw).1 (m.currentDigest raw)
      = ((PickleKeyStorage.readInternal m idx raw).1, some val, true) ∧
    PickleKeyStorage.readInternal m (PickleKeyStorage.readInternal m idx raw).1 raw
      = ((PickleKeyStorage.readInternal m idx raw).1, some val, true) := by
  have h1 : PickleKeyStorage.readInternal m idx raw =
      ({ idx with store := fun k => if k = m.currentDigest raw then some (m.save val)
            else idx.store k }, some val, true) := by
    simp only [PickleKeyStorage.readInternal, readForDigest, hcur]
    rw [hsplit, readPrevLoop_skip_miss m raw pre (vhit :: rest) idx hpre, readPrevLoop]
    simp only [readForDigest, hhit, hload]
    simp only [PickleKeyStorage.write, hcur, hacc, if_true]
  have h2 : readForDigest m
      ({ idx with store := fun k => if k = m.currentDigest raw then some (m.save val)
          else idx.store k } : IdxLoc) (m.currentDigest raw)
      = ({ idx with store := fun k => if k = m.currentDigest raw then some (m.save val)
            else idx.store k }, some val, true) := by
    simp [readForDigest, hround]
  have h3 : PickleKeyStorage.readInternal m
      ({ idx with store := fun k => if k = m.currentDigest raw then some (m.save val)
          else idx.store k } : IdxLoc) raw
      = ({ idx with store := fun k => if k = m.currentDigest raw then some (m.save val)
            else idx.store k }, some val, true) := by
    simp only [PickleKeyStorage.readInternal, h2]
  refine ⟨h1, ?_, ?_⟩ <;> rw [h1]
  · exact h2
  · exact h3

/-- The concrete external collaborators used by the pickle witnesses: the
digest concatenates decimal digits, the fingerprint of `raw` is `[raw, 0]`
for the current version and `[raw, v + 1]` for a previous version `v`, the
single previous version is `3`, and the serializer stores a value `v` as the
one-byte blob `[v]`. -/
def pickleM : PickleModel :=
  { hashAlg := fun b => b.foldl (fun a x => 10 * a + x) 0,
    dumps := fun raw v =>
      match v with
      | none => [raw, 0]
      | some u => [raw, u + 1],
    previousVersions := [3],
    save := fun v => [v],
    load := fun b =>
      match b with
      | [v] => some v
      | _ => none }

/-- A concrete index holding blob `[42]` only under the version-3 digest of
raw key `1` (which is `14`); the current digest of raw key `1` is `10`. -/
def pickleIdx : IdxLoc := ⟨fun k => if k = 14 then some [42] else none, true⟩

/-- An empty, accepting index. -/
def pickleIdxEmpty : IdxLoc := ⟨fun _ => none, true⟩

/-- Witness for Claim C7's theorem: raw key `1` misses the current digest,
hits the version-3 digest, the value `42` comes back, the index now holds
`[42]` under the current digest, and a second read hits directly. -/
theorem pickle_read_version_fallback_witness :
    pickleIdx.store (pickleM.currentDigest 1) = none ∧
    pickleM.previousVersions.reverse = [] ++ 3 :: [] ∧
    pickleIdx.store (pickleM.versionDigest 1 3) = some [42] ∧
    pickleM.load [42] = some 42 ∧ pickleIdx.accepts = true ∧
    pickleM.load (pickleM.save 42) = some 42 ∧
    (PickleKeyStorage.readInternal pickleM pickleIdx 1).2 = (some 42, true) ∧
    (PickleKeyStorage.readInternal pickleM pickleIdx 1).1.store
      (pickleM.currentDigest 1) = some [42] ∧
    PickleKeyStorage.readInternal pickleM
      (PickleKeyStorage.readInternal pickleM pickleIdx 1).1 1
      = ((PickleKeyStorage.readInternal pickleM pickleIdx 1).1, some 42, true) := by
  have h := pickle_read_version_fallback pickleM pickleIdx 1 [] [] 3 [42] 42
    rfl rfl (by intro u hu; simp at hu) rfl rfl rfl rfl
  refine ⟨rfl, rfl, rfl, rfl, rfl, rfl, ?_, ?_, h.2.2⟩
  · rw [h.1]
  · rw [h.1]
    rfl

/-! ### Claim C10 -/

/-- Claim C10: for every key, `PickleKeyStorage.read` with `error=False`
returns a pair `(value, exists)` with `exists` a bool — never a `ReadError`
— and when the key is absent under the current and all previous fingerprint
versions it returns `(None, False)` without touching the index. -/
theorem pickle_read_error_false_pair (m : PickleModel) (idx : IdxLoc) (raw : Nat) :
    (∃ v found, (PickleKeyStorage.read m idx raw false).2 = .pair v found) ∧
    (idx.store (m.currentDigest raw) = none →
      (∀ version ∈ m.previousVersions,
        idx.store (m.versionDigest raw version) = none) →
      PickleKeyStorage.read m idx raw false = (idx, .pair none false)) := by
  constructor
  · rcases h : PickleKeyStorage.readInternal m idx raw with ⟨idx1, v, found⟩
    exact ⟨v, found, by simp [PickleKeyStorage.read, h]⟩
  · intro hcur hall
    have hmiss : PickleKeyStorage.readInternal m idx raw = (idx, none, false) := by
      simp only [PickleKeyStorage.readInternal, readForDigest, hcur]
      exact readPrevLoop_all_miss m raw m.previousVersions.reverse idx
        (fun u hu => hall u (List.mem_reverse.mp hu))
    simp [PickleKeyStorage.read, hmiss]

/-- Witness for Claim C10's theorem: raw key `1` against an empty index
yields the pair `(None, False)` and no error. -/
theorem pickle_read_error_false_witness :
    pickleIdxEmpty.store (pickleM.currentDigest 1) = none ∧
    (∀ version ∈ pickleM.previousVersions,
      pickleIdxEmpty.store (pickleM.versionDigest 1 version) = none) ∧
    PickleKeyStorage.read pickleM pickleIdxEmpty 1 false
      = (pickleIdxEmpty, .pair none false) := by
  refine ⟨rfl, fun v hv => rfl, ?_⟩
  exact (pickle_read_error_false_pair pickleM pickleIdxEmpty 1).2 rfl (fun v hv => rfl)

end Tarn
